import Mathlib

/-!
# Shader source preprocessing, name derivation and the shader registry

A shallow embedding of `src/OpenGL/OpenGLShader.cpp`.

* `std::string` is a list of characters (`Str`).
* `size_t` positions are natural numbers; the result `std::string::npos` of a search is
  `none`.  The two subtractions of the source that can wrap around (`eol - begin` and
  `lastDot - lastSlash`) are taken modulo `2 ^ 64` (`sizeSub`).
* `std::unordered_map` is an association list with `operator[]` modelled by `UMap.assign`
  and `UMap.index`.
* a failed `GEN_ASSERT` ends the run with a `Fatal` value.
-/

set_option autoImplicit false

namespace gen

/-- The type `std::string`. -/
abbrev Str := List Char

/-! ## `std::string` operations used by the source -/

/-- The modulus of `size_t` arithmetic. -/
def SIZE_MOD : Nat := 18446744073709551616

/-- Subtraction of two `size_t` values, wrapping around modulo `2 ^ 64`: for `a` and `b`
below `2 ^ 64` this is `(a + 2 ^ 64 - b) % 2 ^ 64` (`sizeSub_eq_mod`). -/
def sizeSub (a b : Nat) : Nat := if b ≤ a then a - b else SIZE_MOD - (b - a)

/-- The member `substr(pos, count)`: at most `count` characters from `pos` on.  Every call
in the source has `pos ≤ size()` (a tag of five characters and a later line terminator lie
before `begin`, `nextLinePos` is the index of a character, and `lastSlash` is at most one
past an index), so the `std::out_of_range` exit is never taken. -/
def substr (s : Str) (pos count : Nat) : Str := (s.drop pos).take count

/-- The member `substr(pos)`: everything from `pos` on. -/
def substrFrom (s : Str) (pos : Nat) : Str := s.drop pos

/-- Index of the first occurrence of `tok` in `s`. -/
def firstOcc (tok : Str) : Str → Option Nat
  | [] => if tok.isEmpty then some 0 else none
  | c :: cs =>
    if tok.isPrefixOf (c :: cs) then some 0 else (firstOcc tok cs).map (· + 1)

/-- Index of the first character of `s` satisfying `p`. -/
def firstIdx (p : Char → Bool) : Str → Option Nat
  | [] => none
  | c :: cs => if p c then some 0 else (firstIdx p cs).map (· + 1)

/-- Index of the last character of `s` satisfying `p`. -/
def lastIdx (p : Char → Bool) : Str → Option Nat
  | [] => none
  | c :: cs =>
    match lastIdx p cs with
    | some i => some (i + 1)
    | none => if p c then some 0 else none

/-- The member `find(tok, pos)`. -/
def find (s tok : Str) (pos : Nat) : Option Nat :=
  if pos ≤ s.length then (firstOcc tok (s.drop pos)).map (pos + ·) else none

/-- The member `find_first_of(chars, pos)`. -/
def find_first_of (s chars : Str) (pos : Nat) : Option Nat :=
  (firstIdx (fun c => chars.contains c) (s.drop pos)).map (pos + ·)

/-- The member `find_first_not_of(chars, pos)`. -/
def find_first_not_of (s chars : Str) (pos : Nat) : Option Nat :=
  (firstIdx (fun c => !chars.contains c) (s.drop pos)).map (pos + ·)

/-- The member `find_last_of(chars)`. -/
def find_last_of (s chars : Str) : Option Nat :=
  lastIdx (fun c => chars.contains c) s

/-- The member `rfind(c)`. -/
def rfind (s : Str) (c : Char) : Option Nat :=
  lastIdx (fun d => d == c) s

/-! ## Display-name derivation (both file constructors) -/

/-- The two path separators, the argument of `find_last_of`. -/
def pathSeparators : Str := ['/', '\\']

/-- The name computed at the end of `OpenGLShader::OpenGLShader(filepath)`; the two-file
constructor runs the same statements on `vsFile`. -/
def deriveName (filepath : Str) : Str :=
  let lastSlash : Nat :=
    match find_last_of filepath pathSeparators with
    | none => 0
    | some i => i + 1
  let lastDot : Nat :=
    match rfind filepath '.' with
    | none => filepath.length
    | some i => i
  substr filepath lastSlash (sizeSub lastDot lastSlash)

/-- The rule of the specification, first half: everything up to and including the last
path separator is removed. -/
def stripDirectory (path : Str) : Str :=
  (path.reverse.takeWhile (fun c => !pathSeparators.contains c)).reverse

/-- The rule of the specification, second half: everything from the last `.` onward is
removed; a text without `.` is kept whole. -/
def stripExtension (rest : Str) : Str :=
  if rest.contains '.' then ((rest.reverse.dropWhile (fun c => c != '.')).drop 1).reverse
  else rest

/-- The display name as the specification words it. -/
def specName (path : Str) : Str := stripExtension (stripDirectory path)

/-! ## Assertions, stage kinds and the stage source map -/

/-- The conditions under which the source stops with a failed assertion, one per
`GEN_ASSERT` message, and `outOfFuel` for a model loop that was given too few steps
(`PreProcess_fuel_suffices` shows that this never happens). -/
inductive Fatal where
  | unknownShaderType
  | syntaxError
  | invalidShaderType
  | tooManyStages
  | compilationFailed
  | linkFailure
  | outOfFuel
  deriving DecidableEq, Repr

/-- Modelled from the spec: the assertion facility `GEN_ASSERT` is declared in a header
that is not part of the sources at hand; the specification describes it as a fatal
assertion that aborts execution when its condition is false. -/
def GEN_ASSERT (cond : Bool) (failure : Fatal) : Except Fatal Unit :=
  if cond then .ok () else .error failure

/-- The type `GLenum`. -/
abbrev GLenum := Nat

/-- The value of `GL_VERTEX_SHADER` in the OpenGL headers (`0x8B31`). -/
def GL_VERTEX_SHADER : GLenum := 35633

/-- The value of `GL_FRAGMENT_SHADER` in the OpenGL headers (`0x8B30`). -/
def GL_FRAGMENT_SHADER : GLenum := 35632

/-- The function `utils::ShaderTypeFromString`. -/
def ShaderTypeFromString (type : Str) : Except Fatal GLenum :=
  if type = "vertex".toList then
    .ok GL_VERTEX_SHADER
  else if type = "fragment".toList ∨ type = "pixel".toList then
    .ok GL_FRAGMENT_SHADER
  else do
    GEN_ASSERT false .unknownShaderType
    return 0

/-- The container `std::unordered_map<K, V>`, as the list of its entries. -/
abbrev UMap (K V : Type) := List (K × V)

namespace UMap

variable {K V : Type} [DecidableEq K]

/-- The member `find(k)`, as the value found. -/
def lookup (m : UMap K V) (k : K) : Option V :=
  match m with
  | [] => none
  | (k1, v1) :: rest => if k1 = k then some v1 else lookup rest k

/-- The statement `m[k] = v`. -/
def assign (m : UMap K V) (k : K) (v : V) : UMap K V :=
  match m with
  | [] => [(k, v)]
  | (k1, v1) :: rest => if k1 = k then (k, v) :: rest else (k1, v1) :: assign rest k v

/-- The expression `m[k]` read as a value: an absent key gets the default value `d`, which
is also the value returned. -/
def index (m : UMap K V) (k : K) (d : V) : V × UMap K V :=
  match lookup m k with
  | some v => (v, m)
  | none => (d, assign m k d)

/-- The member `size()`. -/
def size (m : UMap K V) : Nat := m.length

end UMap

/-- The type of `shaderSources`. -/
abbrev SourceMap := UMap GLenum Str

/-! ## `OpenGLShader::PreProcess` -/

/-- The local `typeToken`. -/
def typeToken : Str := "#type".toList

/-- The local `typeTokenLength`. -/
def typeTokenLength : Nat := typeToken.length

/-- The two line terminators, the argument of `find_first_of` and `find_first_not_of`. -/
def lineTerminators : Str := ['\r', '\n']

/-- One pass through the body of the `while` loop of `PreProcess`, entered with the tag
position `pos`: the next value of `pos` and the updated map, or the failed assertion. -/
def PreProcess.body (source : Str) (pos : Nat) (shaderSources : SourceMap) :
    Except Fatal (Option Nat × SourceMap) :=
  match find_first_of source lineTerminators pos with
  | none => .error .syntaxError
  | some eol =>
    let begin := pos + typeTokenLength + 1
    let type := substr source begin (sizeSub eol begin)
    match ShaderTypeFromString type with
    | .error e => .error e
    | .ok kind =>
      if kind = 0 then .error .invalidShaderType
      else
        match find_first_not_of source lineTerminators eol with
        | none => .error .syntaxError
        | some nextLinePos =>
          let next := find source typeToken nextLinePos
          let text :=
            match next with
            | none => substrFrom source nextLinePos
            | some p => substr source nextLinePos (p - nextLinePos)
          .ok (next, UMap.assign shaderSources kind text)

/-- The `while` loop of `PreProcess`, run for at most `fuel` passes. -/
def PreProcess.loop (source : Str) : Nat → Option Nat → SourceMap → Except Fatal SourceMap
  | _, none, shaderSources => .ok shaderSources
  | 0, some _, _ => .error .outOfFuel
  | fuel + 1, some pos, shaderSources =>
    match PreProcess.body source pos shaderSources with
    | .error e => .error e
    | .ok (next, updated) => PreProcess.loop source fuel next updated

/-- The tag positions at which the `while` loop of `PreProcess` is entered, in order. -/
def PreProcess.scanned (source : Str) : Nat → Option Nat → SourceMap → List Nat
  | _, none, _ => []
  | 0, some _, _ => []
  | fuel + 1, some pos, shaderSources =>
    pos :: match PreProcess.body source pos shaderSources with
      | .error _ => []
      | .ok (next, updated) => PreProcess.scanned source fuel next updated

/-- The function `OpenGLShader::PreProcess`.  Every pass moves `pos` forward, so
`source.length + 1` passes are enough. -/
def PreProcess (source : Str) : Except Fatal SourceMap :=
  PreProcess.loop source (source.length + 1) (find source typeToken 0) []

/-- The positions of the tags scanned by `PreProcess source`. -/
def scannedTags (source : Str) : List Nat :=
  PreProcess.scanned source (source.length + 1) (find source typeToken 0) []

/-- Equality of two outcomes is decidable. -/
instance instDecidableEqOutcome {ε α : Type} [DecidableEq ε] [DecidableEq α] :
    DecidableEq (Except ε α)
  | .ok a, .ok b =>
    if h : a = b then isTrue (congrArg Except.ok h)
    else isFalse (fun h2 => h (Except.ok.inj h2))
  | .error a, .error b =>
    if h : a = b then isTrue (congrArg Except.error h)
    else isFalse (fun h2 => h (Except.error.inj h2))
  | .ok _, .error _ => isFalse (fun h => Except.noConfusion h)
  | .error _, .ok _ => isFalse (fun h => Except.noConfusion h)

/-! ## `OpenGLShader::Compile` and the constructors -/

/-- The answers of the graphics driver that decide the control flow of `Compile`. -/
structure Driver where
  /-- The handle returned by `glCreateProgram`. -/
  glCreateProgram : Nat
  /-- The `GL_COMPILE_STATUS` of a stage of the given kind and source text. -/
  compileStatus : GLenum → Str → Bool
  /-- The `GL_LINK_STATUS` of the program with the given attached stages. -/
  linkStatus : List (GLenum × Str) → Bool

/-- The driver calls of `Compile` that the model records. -/
inductive GLCall where
  | glCreateProgram
  | glCreateShader (type : GLenum)
  | glShaderSource (source : Str)
  | glCompileShader
  | glAttachShader
  | glDeleteShader
  | glLinkProgram
  | glDeleteProgram
  deriving DecidableEq, Repr

/-- The `for` loop of `Compile` over the entries of `shaderSources`, in the order in which
the container enumerates them: the driver calls made and whether every stage compiled. -/
def Compile.stages (gl : Driver) : List (GLenum × Str) → List GLCall × Except Fatal Unit
  | [] => ([], .ok ())
  | (type, source) :: rest =>
    if gl.compileStatus type source then
      let r := Compile.stages gl rest
      ([.glCreateShader type, .glShaderSource source, .glCompileShader, .glAttachShader]
        ++ r.1, r.2)
    else
      ([.glCreateShader type, .glShaderSource source, .glCompileShader, .glDeleteShader],
        .error .compilationFailed)

/-- The function `OpenGLShader::Compile`: the driver calls made, and the value stored in
`m_rendererID` or the failed assertion. -/
def Compile (gl : Driver) (shaderSources : SourceMap) : List GLCall × Except Fatal Nat :=
  if UMap.size shaderSources ≤ 2 then
    let r := Compile.stages gl shaderSources
    match r.2 with
    | .error e => (.glCreateProgram :: r.1, .error e)
    | .ok () =>
      if gl.linkStatus shaderSources then
        (.glCreateProgram :: r.1 ++ [.glLinkProgram], .ok gl.glCreateProgram)
      else
        (.glCreateProgram :: r.1 ++ [.glLinkProgram, .glDeleteProgram], .error .linkFailure)
  else
    ([.glCreateProgram], .error .tooManyStages)

/-- The data members of `OpenGLShader`. -/
structure OpenGLShader where
  m_rendererID : Nat
  m_name : Str
  deriving DecidableEq, Repr

/-- Modelled from the spec: the accessor `GetName` is defined in the header, which is not
part of the sources at hand; the specification lists it as the accessor for the display
name. -/
def OpenGLShader.GetName (shader : OpenGLShader) : Str := shader.m_name

/-- What the surroundings answer during one construction of a shader. -/
structure World where
  /-- The content of the file at a path, `none` when it cannot be opened. -/
  file : Str → Option Str
  /-- The graphics driver. -/
  gl : Driver
  /-- The address of the object that `std::make_shared` creates. -/
  address : Nat

/-- The function `OpenGLShader::ReadFile`: the content of the file, the empty text (after
logging an error) when it cannot be opened. -/
def ReadFile (w : World) (filepath : Str) : Str :=
  match w.file filepath with
  | some content => content
  | none => []

/-- The constructor `OpenGLShader::OpenGLShader(filepath)`. -/
def OpenGLShader.fromFile (w : World) (filepath : Str) : Except Fatal OpenGLShader := do
  let source := ReadFile w filepath
  let shaderSources ← PreProcess source
  let m_rendererID ← (Compile w.gl shaderSources).2
  return { m_rendererID := m_rendererID, m_name := deriveName filepath }

/-- A non-null `SP<OpenGLShader>`: the address of the shared object and the object. -/
structure ShaderPtr where
  address : Nat
  object : OpenGLShader
  deriving DecidableEq, Repr

/-- The type `SP<OpenGLShader>`; `none` is the null pointer. -/
abbrev SP := Option ShaderPtr

/-- The function `OpenGLShader::Create(filepath)`. -/
def OpenGLShader.Create (w : World) (filepath : Str) : Except Fatal ShaderPtr := do
  let object ← OpenGLShader.fromFile w filepath
  return { address := w.address, object := object }

/-! ## `ShaderLibrary` -/

/-- The data member of `ShaderLibrary`. -/
structure ShaderLibrary where
  m_shaders : UMap Str SP
  deriving DecidableEq, Repr

namespace ShaderLibrary

/-- The function `ShaderLibrary::Add(name, shader)`. -/
def Add (lib : ShaderLibrary) (name : Str) (shader : SP) : ShaderLibrary :=
  { m_shaders := UMap.assign lib.m_shaders name shader }

/-- The function `ShaderLibrary::Add(shader)`; it reads the name through the pointer, so
the pointer is not null. -/
def AddShader (lib : ShaderLibrary) (shader : ShaderPtr) : ShaderLibrary :=
  let name := shader.object.GetName
  Add lib name (some shader)

/-- The function `ShaderLibrary::Load(filepath)`: the pointer returned and the registry
after the call. -/
def Load (w : World) (lib : ShaderLibrary) (filepath : Str) :
    Except Fatal (ShaderPtr × ShaderLibrary) := do
  let shader ← OpenGLShader.Create w filepath
  return (shader, AddShader lib shader)

/-- The function `ShaderLibrary::Load(name, filepath)`. -/
def LoadAs (w : World) (lib : ShaderLibrary) (name filepath : Str) :
    Except Fatal (ShaderPtr × ShaderLibrary) := do
  let shader ← OpenGLShader.Create w filepath
  return (shader, Add lib name (some shader))

/-- The function `ShaderLibrary::Get`: the pointer returned and the registry after the
call. -/
def Get (lib : ShaderLibrary) (name : Str) : SP × ShaderLibrary :=
  let r := UMap.index lib.m_shaders name none
  (r.1, { m_shaders := r.2 })

/-- The function `ShaderLibrary::Exists`. -/
def Exists (lib : ShaderLibrary) (name : Str) : Bool :=
  (UMap.lookup lib.m_shaders name).isSome

/-- The registry of a freshly constructed `ShaderLibrary`. -/
def empty : ShaderLibrary := { m_shaders := [] }

end ShaderLibrary

/-- A call of a member function that can change the registry. -/
inductive LibraryCall where
  | add (name : Str) (shader : SP)
  | addShader (shader : ShaderPtr)
  | load (w : World) (filepath : Str)
  | loadAs (w : World) (name filepath : Str)
  | get (name : Str)

/-- The registry after one call, or the failed assertion that ended the run. -/
def LibraryCall.run (lib : ShaderLibrary) : LibraryCall → Except Fatal ShaderLibrary
  | .add name shader => .ok (lib.Add name shader)
  | .addShader shader => .ok (lib.AddShader shader)
  | .load w filepath => (lib.Load w filepath).map (·.2)
  | .loadAs w name filepath => (lib.LoadAs w name filepath).map (·.2)
  | .get name => .ok (lib.Get name).2

/-- The registry after a sequence of calls. -/
def runCalls (lib : ShaderLibrary) : List LibraryCall → Except Fatal ShaderLibrary
  | [] => .ok lib
  | c :: cs =>
    match c.run lib with
    | .error e => .error e
    | .ok next => runCalls next cs

/-- Whether a call adds or loads a shader under the name `name`. -/
def LibraryCall.registers (name : Str) : LibraryCall → Bool
  | .add n _ => n = name
  | .addShader shader => shader.object.GetName = name
  | .load _ filepath => deriveName filepath = name
  | .loadAs _ n _ => n = name
  | .get _ => false

/-- A driver that accepts every stage and every program. -/
def acceptingDriver : Driver :=
  { glCreateProgram := 1, compileStatus := fun _ _ => true, linkStatus := fun _ => true }

/-- A world with one readable file. -/
def oneFileWorld (filepath content : Str) : World :=
  { file := fun p => if p = filepath then some content else none,
    gl := acceptingDriver,
    address := 4096 }

/-! ## The container -/

namespace UMap

variable {K V : Type} [DecidableEq K]

theorem lookup_assign_self (m : UMap K V) (k : K) (v : V) :
    lookup (assign m k v) k = some v := by
  induction m with
  | nil => simp [assign, lookup]
  | cons e rest ih =>
    obtain ⟨k1, v1⟩ := e
    by_cases h : k1 = k
    · simp [assign, lookup, h]
    · simp [assign, lookup, h, ih]

theorem lookup_assign_other (m : UMap K V) (k other : K) (v : V) (h : other ≠ k) :
    lookup (assign m k v) other = lookup m other := by
  induction m with
  | nil => simp [assign, lookup, Ne.symm h]
  | cons e rest ih =>
    obtain ⟨k1, v1⟩ := e
    by_cases h1 : k1 = k
    · subst h1
      simp [assign, lookup, Ne.symm h]
    · by_cases h2 : k1 = other
      · subst h2
        simp [assign, lookup, h1]
      · simp [assign, lookup, h1, h2, ih]

end UMap

/-! ## The registry -/

theorem Get_fst (lib : ShaderLibrary) (name : Str) :
    (lib.Get name).1 = (UMap.lookup lib.m_shaders name).getD none := by
  unfold ShaderLibrary.Get UMap.index
  cases h : UMap.lookup lib.m_shaders name <;> simp

theorem Get_lookup_other (lib : ShaderLibrary) (name other : Str) (h : other ≠ name) :
    UMap.lookup (lib.Get name).2.m_shaders other = UMap.lookup lib.m_shaders other := by
  unfold ShaderLibrary.Get UMap.index
  cases h1 : UMap.lookup lib.m_shaders name with
  | none => simpa using UMap.lookup_assign_other lib.m_shaders name other none h
  | some v => simp

theorem Get_lookup_self (lib : ShaderLibrary) (name : Str) :
    UMap.lookup (lib.Get name).2.m_shaders name
      = some ((UMap.lookup lib.m_shaders name).getD none) := by
  unfold ShaderLibrary.Get UMap.index
  cases h1 : UMap.lookup lib.m_shaders name with
  | none => simpa using UMap.lookup_assign_self lib.m_shaders name none
  | some v => simpa using h1

theorem Create_name (w : World) (filepath : Str) (shader : ShaderPtr)
    (h : OpenGLShader.Create w filepath = .ok shader) :
    shader.object.GetName = deriveName filepath := by
  unfold OpenGLShader.Create OpenGLShader.fromFile at h
  simp only [bind, Except.bind, pure, Except.pure] at h
  cases h1 : PreProcess (ReadFile w filepath) with
  | error e => simp [h1] at h
  | ok m =>
    simp only [h1] at h
    cases h2 : (Compile w.gl m).2 with
    | error e => simp [h2] at h
    | ok r =>
      simp only [h2] at h
      cases h
      rfl

/-- A name is unregistered in a registry when it has no entry or a null entry. -/
def Unregistered (lib : ShaderLibrary) (name : Str) : Prop :=
  (UMap.lookup lib.m_shaders name).getD none = none

theorem Unregistered_Add (lib : ShaderLibrary) (name n : Str) (shader : SP)
    (h : Unregistered lib name) (hn : n ≠ name) : Unregistered (lib.Add n shader) name := by
  unfold Unregistered ShaderLibrary.Add at *
  simpa [UMap.lookup_assign_other lib.m_shaders n name shader (Ne.symm hn)] using h

theorem Unregistered_run (lib next : ShaderLibrary) (name : Str) (c : LibraryCall)
    (h : Unregistered lib name) (hc : c.registers name = false) (hr : c.run lib = .ok next) :
    Unregistered next name := by
  cases c with
  | add n shader =>
    simp only [LibraryCall.run] at hr
    cases hr
    exact Unregistered_Add lib name n shader h (by simpa [LibraryCall.registers] using hc)
  | addShader shader =>
    simp only [LibraryCall.run] at hr
    cases hr
    exact Unregistered_Add lib name _ _ h (by simpa [LibraryCall.registers] using hc)
  | load w filepath =>
    simp only [LibraryCall.run, ShaderLibrary.Load, bind, Except.bind, pure, Except.pure,
      Except.map] at hr
    cases h1 : OpenGLShader.Create w filepath with
    | error e => simp [h1] at hr
    | ok shader =>
      simp only [h1] at hr
      cases hr
      refine Unregistered_Add lib name _ _ h ?_
      rw [Create_name w filepath shader h1]
      simpa [LibraryCall.registers] using hc
  | loadAs w n filepath =>
    simp only [LibraryCall.run, ShaderLibrary.LoadAs, bind, Except.bind, pure, Except.pure,
      Except.map] at hr
    cases h1 : OpenGLShader.Create w filepath with
    | error e => simp [h1] at hr
    | ok shader =>
      simp only [h1] at hr
      cases hr
      exact Unregistered_Add lib name n _ h (by simpa [LibraryCall.registers] using hc)
  | get n =>
    simp only [LibraryCall.run] at hr
    cases hr
    unfold Unregistered at *
    by_cases hn : name = n
    · subst hn
      rw [Get_lookup_self]
      simpa using h
    · rw [Get_lookup_other lib n name hn]
      exact h

theorem Unregistered_runCalls (calls : List LibraryCall) (lib final : ShaderLibrary)
    (name : Str) (h : Unregistered lib name)
    (hc : ∀ c ∈ calls, LibraryCall.registers name c = false)
    (hr : runCalls lib calls = .ok final) : Unregistered final name := by
  induction calls generalizing lib with
  | nil =>
    simp only [runCalls] at hr
    cases hr
    exact h
  | cons c cs ih =>
    simp only [runCalls] at hr
    cases h1 : c.run lib with
    | error e => simp [h1] at hr
    | ok next =>
      simp only [h1] at hr
      exact ih next (Unregistered_run lib next name c h (hc c (by simp)) h1)
        (fun d hd => hc d (by simp [hd])) hr

/-- Claim C4: after a successful `Load(path)` that returned the pointer `s`, `Exists` is true
for the display name derived from `path`, and `Get` of that name returns the same pointer
`s` (same address, same object), whatever the registry held before. -/
theorem Load_then_lookup (w : World) (lib after : ShaderLibrary) (path : Str) (s : ShaderPtr)
    (h : lib.Load w path = .ok (s, after)) :
    after.Exists (deriveName path) = true ∧ (after.Get (deriveName path)).1 = some s := by
  simp only [ShaderLibrary.Load, bind, Except.bind, pure, Except.pure] at h
  cases h1 : OpenGLShader.Create w path with
  | error e => simp [h1] at h
  | ok shader =>
    simp only [h1] at h
    cases h
    have hn := Create_name w path s h1
    have hl : UMap.lookup (lib.AddShader s).m_shaders (deriveName path) = some (some s) := by
      unfold ShaderLibrary.AddShader ShaderLibrary.Add
      rw [hn]
      exact UMap.lookup_assign_self _ _ _
    constructor
    · simp [ShaderLibrary.Exists, hl]
    · rw [Get_fst, hl]
      rfl

/-- The registry used in the witness of C4: it already holds a null entry named `Basic`. -/
def basicRegistry : ShaderLibrary := ShaderLibrary.empty.Add "Basic".toList none

/-- The world used in the witness of C4. -/
def basicWorld : World :=
  oneFileWorld "shaders/Basic.glsl".toList "#type vertex\nA\n#type fragment\nB".toList

/-- The pointer that `Load` returns in the witness of C4. -/
def basicShader : ShaderPtr := ⟨4096, ⟨1, "Basic".toList⟩⟩

/-- Witness of C4: loading `shaders/Basic.glsl` into a registry that already holds an entry
named `Basic`. -/
theorem Load_then_lookup_witness :
    basicRegistry.Load basicWorld "shaders/Basic.glsl".toList
      = .ok (basicShader, basicRegistry.AddShader basicShader)
    ∧ deriveName "shaders/Basic.glsl".toList = "Basic".toList
    ∧ (basicRegistry.AddShader basicShader).Exists (deriveName "shaders/Basic.glsl".toList)
        = true
    ∧ ((basicRegistry.AddShader basicShader).Get (deriveName "shaders/Basic.glsl".toList)).1
        = some basicShader :=
  ⟨by decide, by decide,
    Load_then_lookup basicWorld basicRegistry (basicRegistry.AddShader basicShader)
      "shaders/Basic.glsl".toList basicShader (by decide)⟩

/-- Claim C5: in a registry reached from the empty one by any sequence of calls none of
which adds or loads a shader under `name`, `Get name` returns the null pointer; `Get` is a
total function, so no assertion fails. -/
theorem Get_never_loaded (calls : List LibraryCall) (lib : ShaderLibrary) (name : Str)
    (hr : runCalls ShaderLibrary.empty calls = .ok lib)
    (hc : ∀ c ∈ calls, LibraryCall.registers name c = false) :
    (lib.Get name).1 = none := by
  rw [Get_fst]
  exact Unregistered_runCalls calls ShaderLibrary.empty lib name
    (by simp [Unregistered, ShaderLibrary.empty, UMap.lookup]) hc hr

/-- The calls used in the witness of C5. -/
def sampleCalls : List LibraryCall :=
  [.load basicWorld "shaders/Basic.glsl".toList, .get "Other".toList,
    .add "Flat".toList none]

/-- The registry that `sampleCalls` leads to. -/
def sampleRegistry : ShaderLibrary :=
  { m_shaders := [("Basic".toList, some basicShader), ("Other".toList, none),
      ("Flat".toList, none)] }

/-- Witness of C5: after a load, a `Get` of `Other` and an `Add` under another name, `Get`
of `Other` still returns the null pointer. -/
theorem Get_never_loaded_witness :
    runCalls ShaderLibrary.empty sampleCalls = .ok sampleRegistry
    ∧ (∀ c ∈ sampleCalls, LibraryCall.registers "Other".toList c = false)
    ∧ (sampleRegistry.Get "Other".toList).1 = none :=
  ⟨by decide, by decide,
    Get_never_loaded sampleCalls sampleRegistry "Other".toList (by decide) (by decide)⟩

/-- Claim C10: `Get` of a name without an entry returns the null pointer and inserts a null
entry for that name, so that `Exists` turns from false to true; the entries under every
other name are unchanged. -/
theorem Get_inserts (lib : ShaderLibrary) (name : Str) (h : lib.Exists name = false) :
    (lib.Get name).1 = none
    ∧ (lib.Get name).2.Exists name = true
    ∧ UMap.lookup (lib.Get name).2.m_shaders name = some none
    ∧ ∀ other, other ≠ name →
        UMap.lookup (lib.Get name).2.m_shaders other = UMap.lookup lib.m_shaders other := by
  have h0 : UMap.lookup lib.m_shaders name = none := by
    simpa [ShaderLibrary.Exists] using h
  refine ⟨?_, ?_, ?_, ?_⟩
  · rw [Get_fst, h0]
    rfl
  · simp [ShaderLibrary.Exists, Get_lookup_self, h0]
  · simp [Get_lookup_self, h0]
  · intro other ho
    exact Get_lookup_other lib name other ho

/-- Witness of C10: `Get` of `Other` in a registry that only holds `Basic`. -/
theorem Get_inserts_witness :
    (basicRegistry.AddShader basicShader).Exists "Other".toList = false
    ∧ ((basicRegistry.AddShader basicShader).Get "Other".toList).2
        = { m_shaders := [("Basic".toList, some basicShader), ("Other".toList, none)] }
    ∧ ((basicRegistry.AddShader basicShader).Get "Other".toList).1 = none
    ∧ ((basicRegistry.AddShader basicShader).Get "Other".toList).2.Exists "Other".toList
        = true :=
  ⟨by decide, by decide,
    (Get_inserts (basicRegistry.AddShader basicShader) "Other".toList (by decide)).1,
    (Get_inserts (basicRegistry.AddShader basicShader) "Other".toList (by decide)).2.1⟩

/-! ## Searching -/

theorem firstOcc_none_of_not_infix (tok : Str) (s : Str) (h : ¬ tok <:+: s) :
    firstOcc tok s = none := by
  induction s with
  | nil =>
    unfold firstOcc
    split
    · rename_i h1
      exfalso
      apply h
      have : tok = [] := by simpa using h1
      rw [this]
    · rfl
  | cons c cs ih =>
    unfold firstOcc
    split
    · rename_i h1
      exfalso
      apply h
      exact (List.isPrefixOf_iff_prefix.mp h1).isInfix
    · rw [ih (fun h2 => h (h2.trans (List.suffix_cons c cs).isInfix))]
      rfl

theorem find_zero (s tok : Str) : find s tok 0 = firstOcc tok s := by
  unfold find
  simp only [Nat.zero_le, if_true, List.drop_zero]
  cases firstOcc tok s <;> simp

/-- Claim C8: for a source text that does not contain `#type`, `PreProcess` succeeds and
returns the empty mapping. -/
theorem PreProcess_no_tag (source : Str) (h : ¬ typeToken <:+: source) :
    PreProcess source = .ok [] := by
  unfold PreProcess
  rw [find_zero, firstOcc_none_of_not_infix typeToken source h]
  rfl

/-- Witness of C8: a source text without any tag, and the empty text. -/
theorem PreProcess_no_tag_witness :
    (¬ typeToken <:+: "void main();".toList) ∧ PreProcess "void main();".toList = .ok []
    ∧ PreProcess [] = .ok [] :=
  ⟨by decide, PreProcess_no_tag "void main();".toList (by decide),
    PreProcess_no_tag [] (by decide)⟩

/-- Whether a character is a line terminator. -/
def isTerminator (c : Char) : Bool := lineTerminators.contains c

/-- Whether a character is not a line terminator. -/
def notTerminator (c : Char) : Bool := !lineTerminators.contains c

theorem firstIdx_lt (p : Char → Bool) (s : Str) (i : Nat) (h : firstIdx p s = some i) :
    i < s.length := by
  induction s generalizing i with
  | nil => simp [firstIdx] at h
  | cons c cs ih =>
    unfold firstIdx at h
    split at h
    · cases h
      simp
    · cases h1 : firstIdx p cs with
      | none => simp [h1] at h
      | some j =>
        simp only [h1, Option.map_some', Option.some.injEq] at h
        have := ih j h1
        simp only [List.length_cons]
        omega

theorem firstIdx_cons (p : Char → Bool) (c : Char) (cs : Str) :
    firstIdx p (c :: cs) = if p c then some 0 else (firstIdx p cs).map (· + 1) := rfl

theorem firstIdx_append_some (p : Char → Bool) (a b : Str) (i : Nat)
    (h : firstIdx p a = some i) : firstIdx p (a ++ b) = some i := by
  induction a generalizing i with
  | nil => simp [firstIdx] at h
  | cons c cs ih =>
    rw [List.cons_append, firstIdx_cons]
    rw [firstIdx_cons] at h
    by_cases hc : p c = true
    · simpa [hc] using h
    · simp only [hc, Bool.false_eq_true, if_false] at h ⊢
      cases h1 : firstIdx p cs with
      | none => simp [h1] at h
      | some j =>
        rw [ih j h1]
        simpa [h1] using h

theorem firstIdx_append_none (p : Char → Bool) (a b : Str) (h : firstIdx p a = none) :
    firstIdx p (a ++ b) = (firstIdx p b).map (a.length + ·) := by
  induction a with
  | nil =>
    simp only [List.nil_append, List.length_nil, Nat.zero_add]
    cases firstIdx p b <;> simp
  | cons c cs ih =>
    rw [List.cons_append, firstIdx_cons]
    rw [firstIdx_cons] at h
    by_cases hc : p c = true
    · simp [hc] at h
    · simp only [hc, Bool.false_eq_true, if_false, Option.map_eq_none'] at h ⊢
      rw [ih h]
      cases h2 : firstIdx p b with
      | none => simp
      | some j =>
        simp only [Option.map_some', List.length_cons, Option.some.injEq]
        omega

theorem firstIdx_none_iff (p : Char → Bool) (s : Str) :
    firstIdx p s = none ↔ ∀ c ∈ s, p c = false := by
  induction s with
  | nil => simp [firstIdx]
  | cons c cs ih =>
    unfold firstIdx
    by_cases hc : p c = true
    · simp [hc]
    · simp only [hc, Bool.false_eq_true, if_false, Option.map_eq_none', ih, List.mem_cons,
        forall_eq_or_imp]
      simp [hc]

theorem firstIdx_cons_true (p : Char → Bool) (c : Char) (s : Str) (h : p c = true) :
    firstIdx p (c :: s) = some 0 := by
  simp [firstIdx, h]

/-- The tag line at the head of the text `r`, as the loop body of `PreProcess` reads it:
the stage kind and the text from the first character after the tag line that is not a line
terminator. -/
def tagLine (r : Str) : Except Fatal (GLenum × Str) :=
  match firstIdx isTerminator r with
  | none => .error .syntaxError
  | some e =>
    match ShaderTypeFromString ((r.drop 6).take (sizeSub e 6)) with
    | .error x => .error x
    | .ok kind =>
      if kind = 0 then .error .invalidShaderType
      else
        match firstIdx notTerminator (r.drop e) with
        | none => .error .syntaxError
        | some j => .ok (kind, r.drop (e + j))

theorem sizeSub_eq_mod (a b : Nat) (ha : a < SIZE_MOD) (hb : b < SIZE_MOD) :
    sizeSub a b = (a + SIZE_MOD - b) % SIZE_MOD := by
  unfold sizeSub SIZE_MOD at *
  split <;> omega

theorem sizeSub_shift (pos e : Nat) : sizeSub (pos + e) (pos + 6) = sizeSub e 6 := by
  unfold sizeSub
  have h1 : (pos + 6 ≤ pos + e) = (6 ≤ e) := by
    apply propext
    omega
  have h2 : pos + e - (pos + 6) = e - 6 := by omega
  have h3 : pos + 6 - (pos + e) = 6 - e := by omega
  simp only [h1, h2, h3]

theorem body_eq (source : Str) (pos : Nat) (m : SourceMap) :
    PreProcess.body source pos m
      = match tagLine (source.drop pos) with
        | .error x => .error x
        | .ok (kind, rest) =>
          match firstOcc typeToken rest with
          | none => .ok (none, UMap.assign m kind rest)
          | some q =>
            .ok (some (source.length - rest.length + q), UMap.assign m kind (rest.take q)) := by
  unfold PreProcess.body tagLine find_first_of find_first_not_of
  have hi : (fun c => lineTerminators.contains c) = isTerminator := rfl
  have hn : (fun c => !lineTerminators.contains c) = notTerminator := rfl
  rw [hi, hn]
  have hdd : ∀ b, (source.drop pos).drop b = source.drop (pos + b) := by
    intro b
    rw [List.drop_drop]
  have ht : pos + typeTokenLength + 1 = pos + 6 := rfl
  simp only [hdd, ht, substr, substrFrom]
  cases h1 : firstIdx isTerminator (source.drop pos) with
  | none => rfl
  | some e =>
    simp only [Option.map_some', sizeSub_shift]
    cases h2 : ShaderTypeFromString ((source.drop (pos + 6)).take (sizeSub e 6)) with
    | error x => rfl
    | ok kind =>
      simp only
      by_cases hk : kind = 0
      · simp only [hk, if_true]
      · simp only [hk, if_false]
        cases h3 : firstIdx notTerminator (source.drop (pos + e)) with
        | none => rfl
        | some j =>
          have hj := firstIdx_lt _ _ _ h3
          simp only [List.length_drop] at hj
          have hle : pos + e + j ≤ source.length := by omega
          have ha : pos + (e + j) = pos + e + j := by omega
          simp only [Option.map_some', find, hle, if_true, ha]
          cases h4 : firstOcc typeToken (source.drop (pos + e + j)) with
          | none => rfl
          | some q =>
            have h5 : source.length - (source.length - (pos + e + j)) + q = pos + e + j + q := by
              omega
            have h6 : pos + e + j + q - (pos + e + j) = q := by omega
            simp only [Option.map_some', List.length_drop, h5, h6]

theorem firstIdx_some_zero (p : Char → Bool) (s : Str) (h : firstIdx p s = some 0) :
    ∃ c cs, s = c :: cs ∧ p c = true := by
  cases s with
  | nil => simp [firstIdx] at h
  | cons c cs =>
    refine ⟨c, cs, rfl, ?_⟩
    rw [firstIdx_cons] at h
    by_cases hc : p c = true
    · exact hc
    · simp only [hc, Bool.false_eq_true, if_false] at h
      cases h1 : firstIdx p cs with
      | none => simp [h1] at h
      | some j => simp [h1] at h

theorem firstIdx_drop_true (p : Char → Bool) (s : Str) (e : Nat) (h : firstIdx p s = some e) :
    ∃ c cs, s.drop e = c :: cs ∧ p c = true := by
  induction s generalizing e with
  | nil => simp [firstIdx] at h
  | cons c cs ih =>
    rw [firstIdx_cons] at h
    by_cases hc : p c = true
    · simp only [hc, if_true, Option.some.injEq] at h
      subst h
      exact ⟨c, cs, rfl, hc⟩
    · simp only [hc, Bool.false_eq_true, if_false] at h
      cases h1 : firstIdx p cs with
      | none => simp [h1] at h
      | some j =>
        simp only [h1, Option.map_some', Option.some.injEq] at h
        subst h
        simpa using ih j h1

theorem tagLine_ok (r : Str) (kind : GLenum) (rest : Str) (h : tagLine r = .ok (kind, rest)) :
    ∃ n, 0 < n ∧ n < r.length ∧ rest = r.drop n := by
  unfold tagLine at h
  cases h1 : firstIdx isTerminator r with
  | none => simp [h1] at h
  | some e =>
    simp only [h1] at h
    cases h2 : ShaderTypeFromString ((r.drop 6).take (sizeSub e 6)) with
    | error x => simp [h2] at h
    | ok k =>
      simp only [h2] at h
      by_cases hk : k = 0
      · simp [hk] at h
      · simp only [hk, if_false] at h
        cases h3 : firstIdx notTerminator (r.drop e) with
        | none => simp [h3] at h
        | some j =>
          simp only [h3, Except.ok.injEq, Prod.mk.injEq] at h
          have hj := firstIdx_lt _ _ _ h3
          simp only [List.length_drop] at hj
          refine ⟨e + j, ?_, by omega, h.2.symm⟩
          rcases Nat.eq_zero_or_pos j with hj0 | hj0
          · subst hj0
            obtain ⟨c, cs, hc1, hc2⟩ := firstIdx_drop_true _ _ _ h1
            obtain ⟨d, ds, hd1, hd2⟩ := firstIdx_some_zero _ _ h3
            rw [hc1] at hd1
            cases hd1
            simp [isTerminator, notTerminator] at hc2 hd2
            simp [hc2] at hd2
          · omega

theorem firstOcc_cons (tok : Str) (c : Char) (cs : Str) :
    firstOcc tok (c :: cs)
      = if tok.isPrefixOf (c :: cs) then some 0 else (firstOcc tok cs).map (· + 1) := rfl

theorem firstOcc_lt (s : Str) (q : Nat) (h : firstOcc typeToken s = some q) :
    q < s.length := by
  induction s generalizing q with
  | nil => simp [firstOcc, typeToken] at h
  | cons c cs ih =>
    rw [firstOcc_cons] at h
    split at h
    · cases h
      simp
    · cases h1 : firstOcc typeToken cs with
      | none => simp [h1] at h
      | some j =>
        simp only [h1, Option.map_some', Option.some.injEq] at h
        have := ih j h1
        simp only [List.length_cons]
        omega

theorem loop_none (source : Str) (fuel : Nat) (m : SourceMap) :
    PreProcess.loop source fuel none m = .ok m := by
  cases fuel <;> rfl

theorem loop_succ (source : Str) (fuel pos : Nat) (m : SourceMap) :
    PreProcess.loop source (fuel + 1) (some pos) m
      = match PreProcess.body source pos m with
        | .error e => .error e
        | .ok (next, updated) => PreProcess.loop source fuel next updated := rfl

theorem tagLine_nil : tagLine [] = .error .syntaxError := rfl

theorem loop_shift (n : Nat) : ∀ (source : Str) (pos : Nat) (m : SourceMap) (f1 f2 : Nat),
    source.length - pos ≤ n → n < f1 → n < f2 →
    PreProcess.loop source f1 (some pos) m
      = PreProcess.loop (source.drop pos) f2 (some 0) m := by
  induction n with
  | zero =>
    intro source pos m f1 f2 hn h1 h2
    obtain ⟨g1, rfl⟩ : ∃ g, f1 = g + 1 := ⟨f1 - 1, by omega⟩
    obtain ⟨g2, rfl⟩ : ∃ g, f2 = g + 1 := ⟨f2 - 1, by omega⟩
    have hd : source.drop pos = [] := by
      apply List.eq_nil_of_length_eq_zero
      simp only [List.length_drop]
      omega
    rw [loop_succ, loop_succ, body_eq, body_eq, List.drop_zero, hd, tagLine_nil]
  | succ n ih =>
    intro source pos m f1 f2 hn h1 h2
    obtain ⟨g1, rfl⟩ : ∃ g, f1 = g + 1 := ⟨f1 - 1, by omega⟩
    obtain ⟨g2, rfl⟩ : ∃ g, f2 = g + 1 := ⟨f2 - 1, by omega⟩
    rw [loop_succ, loop_succ, body_eq, body_eq, List.drop_zero]
    cases ht : tagLine (source.drop pos) with
    | error x => rfl
    | ok kr =>
      obtain ⟨kind, rest⟩ := kr
      obtain ⟨k, hk0, hk1, hk2⟩ := tagLine_ok _ _ _ ht
      simp only [List.length_drop] at hk1
      have hrest : rest = source.drop (pos + k) := by rw [hk2, List.drop_drop]
      have hlen : rest.length = source.length - (pos + k) := by rw [hrest, List.length_drop]
      cases hq : firstOcc typeToken rest with
      | none =>
        simp only [hq, loop_none]
      | some q =>
        have hql := firstOcc_lt _ _ hq
        simp only [hq, List.length_drop]
        rw [ih source (source.length - rest.length + q) _ g1 (n + 1) (by omega) (by omega)
            (by omega),
          ih (source.drop pos) (source.length - pos - rest.length + q) _ g2 (n + 1)
            (by simp only [List.length_drop]; omega) (by omega) (by omega)]
        congr 1
        rw [List.drop_drop]
        congr 1
        omega

/-- The loop of `PreProcess` entered at a tag that stands at the head of the text `r`. -/
def scanFrom (r : Str) (m : SourceMap) : Except Fatal SourceMap :=
  PreProcess.loop r (r.length + 1) (some 0) m

theorem loop_eq_scanFrom (source : Str) (pos fuel : Nat) (m : SourceMap)
    (h : source.length - pos < fuel) :
    PreProcess.loop source fuel (some pos) m = scanFrom (source.drop pos) m := by
  unfold scanFrom
  rw [loop_shift (source.length - pos) source pos m fuel ((source.drop pos).length + 1)
    (Nat.le_refl _) h (by simp only [List.length_drop]; omega)]

theorem scanFrom_eq (r : Str) (m : SourceMap) :
    scanFrom r m
      = match tagLine r with
        | .error x => .error x
        | .ok (kind, rest) =>
          match firstOcc typeToken rest with
          | none => .ok (UMap.assign m kind rest)
          | some q => scanFrom (rest.drop q) (UMap.assign m kind (rest.take q)) := by
  unfold scanFrom
  rw [loop_succ, body_eq, List.drop_zero]
  cases ht : tagLine r with
  | error x => rfl
  | ok kr =>
    obtain ⟨kind, rest⟩ := kr
    obtain ⟨k, hk0, hk1, hk2⟩ := tagLine_ok _ _ _ ht
    have hlen : rest.length = r.length - k := by rw [hk2, List.length_drop]
    cases hq : firstOcc typeToken rest with
    | none => simp only [hq, loop_none]
    | some q =>
      have hql := firstOcc_lt _ _ hq
      simp only [hq]
      rw [loop_eq_scanFrom r _ r.length _ (by omega)]
      congr 1
      rw [hk2, List.drop_drop]
      congr 1
      simp only [List.length_drop]
      omega

theorem PreProcess_eq (source : Str) :
    PreProcess source
      = match firstOcc typeToken source with
        | none => .ok []
        | some p => scanFrom (source.drop p) [] := by
  unfold PreProcess
  rw [find_zero]
  cases h : firstOcc typeToken source with
  | none => rfl
  | some p =>
    simp only
    rw [loop_eq_scanFrom source p _ _ (by omega)]

theorem ShaderTypeFromString_error (t : Str) (x : Fatal)
    (h : ShaderTypeFromString t = .error x) : x = .unknownShaderType := by
  unfold ShaderTypeFromString at h
  split at h
  · simp at h
  · split at h
    · simp at h
    · simp only [GEN_ASSERT, bind, Except.bind, Bool.false_eq_true, if_false,
        Except.error.injEq] at h
      exact h.symm

theorem tagLine_error (r : Str) (x : Fatal) (h : tagLine r = .error x) :
    x = .syntaxError ∨ x = .unknownShaderType ∨ x = .invalidShaderType := by
  unfold tagLine at h
  cases h1 : firstIdx isTerminator r with
  | none =>
    simp only [h1, Except.error.injEq] at h
    exact Or.inl h.symm
  | some e =>
    simp only [h1] at h
    cases h2 : ShaderTypeFromString ((r.drop 6).take (sizeSub e 6)) with
    | error y =>
      simp only [h2, Except.error.injEq] at h
      subst h
      exact Or.inr (Or.inl (ShaderTypeFromString_error _ _ h2))
    | ok k =>
      simp only [h2] at h
      by_cases hk : k = 0
      · simp only [hk, if_true, Except.error.injEq] at h
        exact Or.inr (Or.inr h.symm)
      · simp only [hk, if_false] at h
        cases h3 : firstIdx notTerminator (r.drop e) with
        | none =>
          simp only [h3, Except.error.injEq] at h
          exact Or.inl h.symm
        | some j => simp [h3] at h

theorem scanFrom_fuel (n : Nat) : ∀ (r : Str) (m : SourceMap), r.length ≤ n →
    scanFrom r m ≠ .error .outOfFuel := by
  induction n with
  | zero =>
    intro r m h
    have hr : r = [] := List.eq_nil_of_length_eq_zero (by omega)
    rw [scanFrom_eq, hr, tagLine_nil]
    simp
  | succ n ih =>
    intro r m h
    rw [scanFrom_eq]
    cases ht : tagLine r with
    | error x =>
      simp only [ne_eq, Except.error.injEq]
      intro hx
      subst hx
      rcases tagLine_error _ _ ht with h1 | h1 | h1 <;> cases h1
    | ok kr =>
      obtain ⟨kind, rest⟩ := kr
      obtain ⟨k, hk0, hk1, hk2⟩ := tagLine_ok _ _ _ ht
      cases hq : firstOcc typeToken rest with
      | none => simp [hq]
      | some q =>
        simp only [hq]
        apply ih
        rw [hk2]
        simp only [List.length_drop]
        omega

/-- The model loop of `PreProcess` never runs out of passes. -/
theorem PreProcess_fuel_suffices (source : Str) : PreProcess source ≠ .error .outOfFuel := by
  rw [PreProcess_eq]
  cases h : firstOcc typeToken source with
  | none => simp
  | some p => exact scanFrom_fuel _ _ _ (Nat.le_refl _)

/-! ## Tags that `PreProcess` scans -/

theorem scanned_none (source : Str) (fuel : Nat) (m : SourceMap) :
    PreProcess.scanned source fuel none m = [] := by
  cases fuel <;> rfl

theorem scanned_succ (source : Str) (fuel pos : Nat) (m : SourceMap) :
    PreProcess.scanned source (fuel + 1) (some pos) m
      = pos :: match PreProcess.body source pos m with
          | .error _ => []
          | .ok (next, updated) => PreProcess.scanned source fuel next updated := rfl

theorem body_no_terminator (source : Str) (pos : Nat) (m : SourceMap)
    (h : find_first_of source lineTerminators pos = none) :
    PreProcess.body source pos m = .error .syntaxError := by
  unfold PreProcess.body
  rw [h]

theorem loop_no_terminator (source : Str) (p : Nat)
    (h : find_first_of source lineTerminators p = none) :
    ∀ (fuel : Nat) (pos : Option Nat) (m : SourceMap),
      p ∈ PreProcess.scanned source fuel pos m →
      PreProcess.loop source fuel pos m = .error .syntaxError := by
  intro fuel
  induction fuel with
  | zero =>
    intro pos m hp
    cases pos with
    | none => simp [scanned_none] at hp
    | some q => simp [PreProcess.scanned] at hp
  | succ fuel ih =>
    intro pos m hp
    cases pos with
    | none => simp [scanned_none] at hp
    | some q =>
      rw [scanned_succ] at hp
      rw [loop_succ]
      rcases List.mem_cons.mp hp with hq | hq
      · subst hq
        rw [body_no_terminator source p m h]
      · cases hb : PreProcess.body source q m with
        | error e => simp [hb] at hq
        | ok r =>
          obtain ⟨next, updated⟩ := r
          simp only [hb] at hq
          exact ih next updated hq

/-- Claim C7: when a tag that `PreProcess` scans (at position `p`) is followed by no line
terminator in the rest of the text, `PreProcess` fails with the fatal syntax error and
returns no mapping. -/
theorem PreProcess_missing_terminator (source : Str) (p : Nat)
    (hp : p ∈ scannedTags source)
    (h : find_first_of source lineTerminators p = none) :
    PreProcess source = .error .syntaxError :=
  loop_no_terminator source p h _ _ _ hp

/-- Witness of C7: the second tag, at position 15, ends the text. -/
theorem PreProcess_missing_terminator_witness :
    15 ∈ scannedTags "#type vertex\nA\n#type fragment".toList
    ∧ find_first_of "#type vertex\nA\n#type fragment".toList lineTerminators 15 = none
    ∧ PreProcess "#type vertex\nA\n#type fragment".toList = .error .syntaxError :=
  ⟨by decide, by decide,
    PreProcess_missing_terminator "#type vertex\nA\n#type fragment".toList 15
      (by decide) (by decide)⟩

/-! ## The number of entries of the stage source map -/

theorem ShaderTypeFromString_ok (t : Str) (k : GLenum) (h : ShaderTypeFromString t = .ok k) :
    k = GL_VERTEX_SHADER ∨ k = GL_FRAGMENT_SHADER := by
  unfold ShaderTypeFromString at h
  split at h
  · simp only [Except.ok.injEq] at h
    exact Or.inl h.symm
  · split at h
    · simp only [Except.ok.injEq] at h
      exact Or.inr h.symm
    · simp [GEN_ASSERT, bind, Except.bind] at h

theorem tagLine_kind (r : Str) (kind : GLenum) (rest : Str)
    (h : tagLine r = .ok (kind, rest)) :
    kind = GL_VERTEX_SHADER ∨ kind = GL_FRAGMENT_SHADER := by
  unfold tagLine at h
  cases h1 : firstIdx isTerminator r with
  | none => simp [h1] at h
  | some e =>
    simp only [h1] at h
    cases h2 : ShaderTypeFromString ((r.drop 6).take (sizeSub e 6)) with
    | error x => simp [h2] at h
    | ok k =>
      simp only [h2] at h
      by_cases hk : k = 0
      · simp [hk] at h
      · simp only [hk, if_false] at h
        cases h3 : firstIdx notTerminator (r.drop e) with
        | none => simp [h3] at h
        | some j =>
          simp only [h3, Except.ok.injEq, Prod.mk.injEq] at h
          rw [← h.1]
          exact ShaderTypeFromString_ok _ _ h2

/-- The keys of a stage source map are distinct stage kinds. -/
def StageKeyed (m : SourceMap) : Prop :=
  (m.map Prod.fst).Nodup ∧ ∀ k ∈ m.map Prod.fst, k = GL_VERTEX_SHADER ∨ k = GL_FRAGMENT_SHADER

theorem keys_assign (m : SourceMap) (k : GLenum) (v : Str) :
    ∀ x, x ∈ (UMap.assign m k v).map Prod.fst ↔ x = k ∨ x ∈ m.map Prod.fst := by
  induction m with
  | nil => simp [UMap.assign]
  | cons e rest ih =>
    obtain ⟨k1, v1⟩ := e
    intro x
    by_cases h : k1 = k
    · subst h
      simp [UMap.assign]
    · simp only [UMap.assign, h, if_false, List.map_cons, List.mem_cons, ih x]
      tauto

theorem nodup_assign (m : SourceMap) (k : GLenum) (v : Str) (h : (m.map Prod.fst).Nodup) :
    ((UMap.assign m k v).map Prod.fst).Nodup := by
  induction m with
  | nil => simp [UMap.assign]
  | cons e rest ih =>
    obtain ⟨k1, v1⟩ := e
    by_cases hk : k1 = k
    · subst hk
      simpa [UMap.assign] using h
    · simp only [List.map_cons, List.nodup_cons] at h
      simp only [UMap.assign, hk, if_false, List.map_cons, List.nodup_cons]
      refine ⟨?_, ih h.2⟩
      intro hx
      rcases (keys_assign rest k v k1).mp hx with h1 | h1
      · exact hk h1
      · exact h.1 h1

theorem StageKeyed_assign (m : SourceMap) (k : GLenum) (v : Str) (h : StageKeyed m)
    (hk : k = GL_VERTEX_SHADER ∨ k = GL_FRAGMENT_SHADER) : StageKeyed (UMap.assign m k v) := by
  refine ⟨nodup_assign m k v h.1, ?_⟩
  intro x hx
  rcases (keys_assign m k v x).mp hx with h1 | h1
  · rw [h1]
    exact hk
  · exact h.2 x h1

theorem StageKeyed_size (m : SourceMap) (h : StageKeyed m) : UMap.size m ≤ 2 := by
  have hsub : m.map Prod.fst ⊆ [GL_VERTEX_SHADER, GL_FRAGMENT_SHADER] := by
    intro x hx
    rcases h.2 x hx with h1 | h1 <;> simp [h1]
  have := (List.subperm_of_subset h.1 hsub).length_le
  simpa [UMap.size] using this

theorem StageKeyed_scanFrom (n : Nat) : ∀ (r : Str) (m result : SourceMap), r.length ≤ n →
    StageKeyed m → scanFrom r m = .ok result → StageKeyed result := by
  induction n with
  | zero =>
    intro r m result h hm hr
    have h0 : r = [] := List.eq_nil_of_length_eq_zero (by omega)
    rw [scanFrom_eq, h0, tagLine_nil] at hr
    simp at hr
  | succ n ih =>
    intro r m result h hm hr
    rw [scanFrom_eq] at hr
    cases ht : tagLine r with
    | error x => simp [ht] at hr
    | ok kr =>
      obtain ⟨kind, rest⟩ := kr
      obtain ⟨k, hk0, hk1, hk2⟩ := tagLine_ok _ _ _ ht
      have hkind := tagLine_kind _ _ _ ht
      simp only [ht] at hr
      cases hq : firstOcc typeToken rest with
      | none =>
        simp only [hq, Except.ok.injEq] at hr
        rw [← hr]
        exact StageKeyed_assign _ _ _ hm hkind
      | some q =>
        simp only [hq] at hr
        refine ih _ _ result ?_ (StageKeyed_assign _ _ _ hm hkind) hr
        rw [hk2]
        simp only [List.length_drop]
        omega

theorem StageKeyed_PreProcess (source : Str) (m : SourceMap) (h : PreProcess source = .ok m) :
    StageKeyed m := by
  rw [PreProcess_eq] at h
  cases hp : firstOcc typeToken source with
  | none =>
    simp only [hp, Except.ok.injEq] at h
    rw [← h]
    exact ⟨by simp, by simp⟩
  | some p =>
    simp only [hp] at h
    exact StageKeyed_scanFrom _ _ _ _ (Nat.le_refl _) ⟨by simp, by simp⟩ h

/-- Claim C3, amended: whatever the number of sections of the combined source, the mapping
that `PreProcess` returns has at most two entries (a later section replaces an earlier one
of the same stage kind), so the supported-stage-count check of `Compile` passes on it. -/
theorem PreProcess_stage_count (source : Str) (m : SourceMap) (gl : Driver)
    (h : PreProcess source = .ok m) :
    UMap.size m ≤ 2 ∧ (Compile gl m).2 ≠ .error .tooManyStages := by
  have hs := StageKeyed_size m (StageKeyed_PreProcess source m h)
  refine ⟨hs, ?_⟩
  unfold Compile
  simp only [hs, if_true]
  cases hc : (Compile.stages gl m).2 with
  | error e =>
    simp only [ne_eq, Except.error.injEq]
    intro he
    subst he
    have : ∀ l, (Compile.stages gl l).2 ≠ .error .tooManyStages := by
      intro l
      induction l with
      | nil => simp [Compile.stages]
      | cons e rest ih =>
        obtain ⟨t, src⟩ := e
        unfold Compile.stages
        split
        · exact ih
        · simp
    exact this m hc
  | ok u =>
    split
    · rename_i heq
      cases heq
    · split <;> simp

/-- A combined source of three well-formed sections. -/
def threeSections : Str :=
  "#type vertex\nA\n".toList ++ "#type fragment\nB\n".toList ++ "#type vertex\nC".toList

/-- Refutation of C3 as stated: on a source of three well-formed sections the stage-count
check of `Compile` passes, both stages are handed to the driver and a program results. -/
theorem three_sections_pass_check :
    PreProcess threeSections
      = .ok [(GL_VERTEX_SHADER, "C".toList), (GL_FRAGMENT_SHADER, "B\n".toList)]
    ∧ Compile acceptingDriver
        [(GL_VERTEX_SHADER, "C".toList), (GL_FRAGMENT_SHADER, "B\n".toList)]
      = ([.glCreateProgram,
          .glCreateShader GL_VERTEX_SHADER, .glShaderSource "C".toList, .glCompileShader,
          .glAttachShader,
          .glCreateShader GL_FRAGMENT_SHADER, .glShaderSource "B\n".toList, .glCompileShader,
          .glAttachShader,
          .glLinkProgram], .ok 1) := by
  decide

/-- Witness of C3 as amended: the source of three sections. -/
theorem PreProcess_stage_count_witness :
    PreProcess threeSections
      = .ok [(GL_VERTEX_SHADER, "C".toList), (GL_FRAGMENT_SHADER, "B\n".toList)]
    ∧ UMap.size [(GL_VERTEX_SHADER, "C".toList), (GL_FRAGMENT_SHADER, "B\n".toList)] ≤ 2
    ∧ (Compile acceptingDriver
        [(GL_VERTEX_SHADER, "C".toList), (GL_FRAGMENT_SHADER, "B\n".toList)]).2
      ≠ .error .tooManyStages :=
  ⟨by decide, PreProcess_stage_count threeSections _ acceptingDriver (by decide)⟩

/-! ## The display name -/

theorem lastIdx_cons (p : Char → Bool) (c : Char) (cs : Str) :
    lastIdx p (c :: cs)
      = match lastIdx p cs with
        | some i => some (i + 1)
        | none => if p c then some 0 else none := rfl

theorem lastIdx_none_of_all (p : Char → Bool) (s : Str) (h : ∀ d ∈ s, p d = false) :
    lastIdx p s = none := by
  induction s with
  | nil => rfl
  | cons c cs ih =>
    rw [lastIdx_cons, ih (fun d hd => h d (List.mem_cons_of_mem c hd))]
    simp [h c (List.mem_cons_self c cs)]

theorem lastIdx_none (p : Char → Bool) (s : Str) (h : lastIdx p s = none) :
    ∀ d ∈ s, p d = false := by
  induction s with
  | nil => simp
  | cons c cs ih =>
    rw [lastIdx_cons] at h
    cases h1 : lastIdx p cs with
    | some i => simp [h1] at h
    | none =>
      simp only [h1] at h
      intro d hd
      rcases List.mem_cons.mp hd with h2 | h2
      · subst h2
        by_cases hc : p d = true
        · simp [hc] at h
        · simpa using hc
      · exact ih h1 d h2

theorem lastIdx_some (p : Char → Bool) (s : Str) (i : Nat) (h : lastIdx p s = some i) :
    ∃ a c b, s = a ++ c :: b ∧ a.length = i ∧ p c = true ∧ ∀ d ∈ b, p d = false := by
  induction s generalizing i with
  | nil => simp [lastIdx] at h
  | cons c cs ih =>
    rw [lastIdx_cons] at h
    cases h1 : lastIdx p cs with
    | some j =>
      simp only [h1, Option.some.injEq] at h
      obtain ⟨a, x, b, hs, ha, hx, hb⟩ := ih j h1
      exact ⟨c :: a, x, b, by rw [hs]; rfl, by simp [ha, h], hx, hb⟩
    | none =>
      simp only [h1] at h
      by_cases hc : p c = true
      · simp only [hc, if_true, Option.some.injEq] at h
        exact ⟨[], c, cs, rfl, by simp [h], hc, lastIdx_none p cs h1⟩
      · simp [hc] at h

theorem lastIdx_append (p : Char → Bool) (x y : Str) :
    lastIdx p (x ++ y)
      = match lastIdx p y with
        | some j => some (x.length + j)
        | none => lastIdx p x := by
  induction x with
  | nil =>
    cases h : lastIdx p y <;> simp [h, lastIdx]
  | cons c cs ih =>
    rw [List.cons_append, lastIdx_cons, ih, lastIdx_cons]
    cases h : lastIdx p y with
    | some j =>
      simp only [List.length_cons, Option.some.injEq]
      omega
    | none => rfl

theorem takeWhile_append_all (q : Char → Bool) (x y : Str) (h : ∀ d ∈ x, q d = true) :
    (x ++ y).takeWhile q = x ++ y.takeWhile q := by
  induction x with
  | nil => rfl
  | cons c cs ih =>
    rw [List.cons_append, List.takeWhile_cons, h c (List.mem_cons_self c cs)]
    simp only [if_true, List.cons_append]
    rw [ih (fun d hd => h d (List.mem_cons_of_mem c hd))]

theorem dropWhile_append_all (q : Char → Bool) (x y : Str) (h : ∀ d ∈ x, q d = true) :
    (x ++ y).dropWhile q = y.dropWhile q := by
  induction x with
  | nil => rfl
  | cons c cs ih =>
    rw [List.cons_append, List.dropWhile_cons, h c (List.mem_cons_self c cs)]
    simp only [if_true]
    exact ih (fun d hd => h d (List.mem_cons_of_mem c hd))

/-- Whether a character is a path separator. -/
def isSeparator (c : Char) : Bool := pathSeparators.contains c

/-- Whether a character is the dot. -/
def isDot (c : Char) : Bool := c == '.'

theorem stripDirectory_all (s : Str) (h : ∀ d ∈ s, isSeparator d = false) :
    stripDirectory s = s := by
  unfold stripDirectory
  have : s.reverse.takeWhile (fun c => !pathSeparators.contains c) = s.reverse := by
    have h1 := takeWhile_append_all (fun c => !pathSeparators.contains c) s.reverse []
      (by
        intro d hd
        have := h d (List.mem_reverse.mp hd)
        simpa [isSeparator] using this)
    simpa using h1
  rw [this, List.reverse_reverse]

theorem stripDirectory_split (a b : Str) (c : Char) (hc : isSeparator c = true)
    (hb : ∀ d ∈ b, isSeparator d = false) : stripDirectory (a ++ c :: b) = b := by
  unfold stripDirectory
  have hr : (a ++ c :: b).reverse = b.reverse ++ (c :: a.reverse) := by simp
  rw [hr, takeWhile_append_all _ _ _ (by
    intro d hd
    have := hb d (List.mem_reverse.mp hd)
    simpa [isSeparator] using this)]
  have : (c :: a.reverse).takeWhile (fun c => !pathSeparators.contains c) = [] := by
    rw [List.takeWhile_cons]
    have : c ∈ pathSeparators := by simpa [isSeparator] using hc
    simp [this]
  rw [this, List.append_nil, List.reverse_reverse]

theorem stripExtension_all (s : Str) (h : ∀ d ∈ s, isDot d = false) :
    stripExtension s = s := by
  unfold stripExtension
  have hm : ¬ '.' ∈ s := by
    intro hm
    have := h '.' hm
    simp [isDot] at this
  simp [hm]

theorem stripExtension_split (a b : Str) (hb : ∀ d ∈ b, isDot d = false) :
    stripExtension (a ++ '.' :: b) = a := by
  unfold stripExtension
  have h1 : (a ++ '.' :: b).contains '.' = true := by simp
  have hr : (a ++ '.' :: b).reverse = b.reverse ++ ('.' :: a.reverse) := by simp
  rw [h1, if_pos rfl, hr, dropWhile_append_all _ _ _ (by
    intro d hd
    have := hb d (List.mem_reverse.mp hd)
    simpa [isDot] using this)]
  rw [List.dropWhile_cons]
  simp

theorem isDot_eq (c : Char) (h : isDot c = true) : c = '.' := by
  simpa [isDot] using h

/-- Claim C2: for every path that a `std::string` can hold, the name that the file
constructors compute (with the wrapping subtraction `lastDot - lastSlash`) is the path
without everything up to its last separator and, in the remainder, without everything from
the last dot on. -/
theorem deriveName_eq_specName (path : Str) (hlen : path.length ≤ SIZE_MOD) :
    deriveName path = specName path := by
  unfold deriveName specName find_last_of rfind substr
  have hs : (fun c => pathSeparators.contains c) = isSeparator := rfl
  have hd : (fun d => d == '.') = isDot := rfl
  rw [hs, hd]
  cases h1 : lastIdx isSeparator path with
  | none =>
    have hall := lastIdx_none _ _ h1
    rw [stripDirectory_all path hall]
    simp only [List.drop_zero]
    cases h2 : lastIdx isDot path with
    | none =>
      rw [stripExtension_all path (lastIdx_none _ _ h2)]
      simp [sizeSub]
    | some j =>
      obtain ⟨a, c, b, hp, ha, hc, hb⟩ := lastIdx_some _ _ _ h2
      have hc2 := isDot_eq c hc
      subst hc2
      rw [hp, stripExtension_split a b hb]
      simp [sizeSub, ← ha]
  | some i =>
    obtain ⟨a, c, b, hp, ha, hc, hb⟩ := lastIdx_some _ _ _ h1
    rw [hp, stripDirectory_split a b c hc hb]
    have hdrop : (a ++ c :: b).drop (i + 1) = b := by
      rw [← ha]
      simp
    simp only [hdrop]
    have hcons : a ++ c :: b = (a ++ [c]) ++ b := by simp
    rw [hcons, lastIdx_append]
    cases h2 : lastIdx isDot b with
    | none =>
      rw [stripExtension_all b (lastIdx_none _ _ h2)]
      simp only
      apply List.take_of_length_le
      have hl : path.length = a.length + 1 + b.length := by
        rw [hp]
        simp
        omega
      cases h3 : lastIdx isDot (a ++ [c]) with
      | none =>
        simp only [List.length_append, List.length_singleton]
        unfold sizeSub
        split <;> omega
      | some j =>
        obtain ⟨a2, c2, b2, hp2, ha2, -, -⟩ := lastIdx_some _ _ _ h3
        have hj : j < a.length + 1 := by
          have := congrArg List.length hp2
          simp at this
          omega
        simp only
        unfold sizeSub
        split <;> omega
    | some j =>
      obtain ⟨b1, c2, b2, hp2, ha2, hc2, hb2⟩ := lastIdx_some _ _ _ h2
      have hc3 := isDot_eq c2 hc2
      subst hc3
      rw [hp2, stripExtension_split b1 b2 hb2]
      simp only [List.length_append, List.length_singleton]
      have : sizeSub (a.length + 1 + j) (i + 1) = b1.length := by
        unfold sizeSub
        split <;> omega
      rw [this]
      simp

/-- Witness of C2: the four paths named in the claim. -/
theorem deriveName_eq_specName_witness :
    deriveName "shaders.v2/Basic".toList = "Basic".toList
    ∧ deriveName "shaders/Basic.glsl".toList = "Basic".toList
    ∧ deriveName "Basic.glsl".toList = "Basic".toList
    ∧ deriveName "shaders/Basic".toList = "Basic".toList :=
  ⟨(deriveName_eq_specName "shaders.v2/Basic".toList (by decide)).trans (by decide),
    (deriveName_eq_specName "shaders/Basic.glsl".toList (by decide)).trans (by decide),
    (deriveName_eq_specName "Basic.glsl".toList (by decide)).trans (by decide),
    (deriveName_eq_specName "shaders/Basic".toList (by decide)).trans (by decide)⟩

/-! ## Searching in a text that continues with a tag -/

theorem typeToken_eq : typeToken = ['#', 't', 'y', 'p', 'e'] := rfl

theorem isPrefixOf_append_hash (P R : Str) (hP : P ≠ []) :
    typeToken.isPrefixOf (P ++ '#' :: R) = typeToken.isPrefixOf P := by
  rw [typeToken_eq]
  match P, hP with
  | [a], _ => simp [List.isPrefixOf]
  | [a, b], _ => simp [List.isPrefixOf]
  | [a, b, c], _ => simp [List.isPrefixOf]
  | [a, b, c, d], _ => simp [List.isPrefixOf]
  | a :: b :: c :: d :: e :: P5, _ => simp [List.isPrefixOf]

theorem firstOcc_append_hash (P R : Str) :
    firstOcc typeToken (P ++ '#' :: R)
      = match firstOcc typeToken P with
        | some p => some p
        | none => (firstOcc typeToken ('#' :: R)).map (P.length + ·) := by
  induction P with
  | nil =>
    have h0 : firstOcc typeToken [] = none := rfl
    rw [h0]
    simp only [List.nil_append, List.length_nil, Nat.zero_add]
    cases firstOcc typeToken ('#' :: R) <;> simp
  | cons c cs ih =>
    rw [List.cons_append, firstOcc_cons, firstOcc_cons, ← List.cons_append,
      isPrefixOf_append_hash (c :: cs) R (by simp), ih]
    by_cases hp : typeToken.isPrefixOf (c :: cs) = true
    · simp [hp]
    · simp only [hp, Bool.false_eq_true, if_false]
      cases h1 : firstOcc typeToken cs with
      | some p => simp
      | none =>
        cases h2 : firstOcc typeToken ('#' :: R) with
        | none => simp
        | some q =>
          simp only [Option.map_some', Option.map_none', List.length_cons, Option.some.injEq]
          omega

theorem firstOcc_tag (R : Str) : firstOcc typeToken (typeToken ++ R) = some 0 := by
  rw [typeToken_eq]
  simp [firstOcc, List.isPrefixOf]

theorem firstOcc_append_tag (P R : Str) :
    firstOcc typeToken (P ++ (typeToken ++ R))
      = some ((firstOcc typeToken P).getD P.length) := by
  have h := firstOcc_append_hash P (['t', 'y', 'p', 'e'] ++ R)
  have h2 : '#' :: (['t', 'y', 'p', 'e'] ++ R) = typeToken ++ R := rfl
  rw [h2, firstOcc_tag] at h
  rw [h]
  cases firstOcc typeToken P <;> simp

theorem notTerminator_eq (c : Char) : notTerminator c = !isTerminator c := rfl

theorem firstIdx_notTerminator (S : Str) :
    match firstIdx notTerminator S with
    | none => S.dropWhile isTerminator = []
    | some j => S.drop j = S.dropWhile isTerminator ∧ S.dropWhile isTerminator ≠ [] := by
  induction S with
  | nil => simp [firstIdx]
  | cons c cs ih =>
    rw [firstIdx_cons, notTerminator_eq, List.dropWhile_cons]
    by_cases hc : isTerminator c = true
    · simp only [hc, Bool.not_true, Bool.false_eq_true, if_false, if_true]
      cases h1 : firstIdx notTerminator cs with
      | none =>
        rw [h1] at ih
        simpa using ih
      | some j =>
        rw [h1] at ih
        simpa using ih
    · simp [hc]

theorem tagLine_tag (name S : Str) (hn : ∀ c ∈ name, isTerminator c = false)
    (hS : ∃ c S1, S = c :: S1 ∧ isTerminator c = true) :
    tagLine (typeToken ++ ' ' :: (name ++ S))
      = match ShaderTypeFromString name with
        | .error x => .error x
        | .ok kind =>
          if kind = 0 then .error .invalidShaderType
          else if S.dropWhile isTerminator = [] then .error .syntaxError
          else .ok (kind, S.dropWhile isTerminator) := by
  obtain ⟨c, S1, hS1, hc⟩ := hS
  have hpre : firstIdx isTerminator (typeToken ++ ' ' :: name) = none := by
    rw [firstIdx_none_iff]
    intro d hd
    rw [typeToken_eq] at hd
    simp only [List.cons_append, List.nil_append, List.mem_cons] at hd
    rcases hd with h | h | h | h | h | h | h
    any_goals (subst h; decide)
    exact hn d h
  have hr : typeToken ++ ' ' :: (name ++ S) = (typeToken ++ ' ' :: name) ++ S := by simp
  have he : firstIdx isTerminator (typeToken ++ ' ' :: (name ++ S)) = some (6 + name.length) := by
    rw [hr, firstIdx_append_none _ _ _ hpre, hS1, firstIdx_cons_true _ _ _ hc]
    simp [typeToken_eq]
    omega
  have hd6 : (typeToken ++ ' ' :: (name ++ S)).drop 6 = name ++ S := rfl
  have hsz : sizeSub (6 + name.length) 6 = name.length := by
    unfold sizeSub
    split <;> omega
  have hde : ∀ j, (typeToken ++ ' ' :: (name ++ S)).drop (6 + name.length + j) = S.drop j := by
    intro j
    rw [Nat.add_assoc, ← List.drop_drop, hd6, ← List.drop_drop, List.drop_left]
  unfold tagLine
  rw [he]
  simp only [hd6, hsz, List.take_left]
  cases hk : ShaderTypeFromString name with
  | error x => rfl
  | ok kind =>
    simp only
    by_cases hk0 : kind = 0
    · simp only [hk0, if_true]
    · simp only [hk0, if_false]
      have h0 := hde 0
      simp only [Nat.add_zero, List.drop_zero] at h0
      rw [h0]
      have hf := firstIdx_notTerminator S
      cases h1 : firstIdx notTerminator S with
      | none =>
        rw [h1] at hf
        simp only [hf, if_true]
      | some j =>
        rw [h1] at hf
        simp only [hf.2, if_false, hde, hf.1]

/-! ## A source of two sections -/

theorem dropWhile_append_hash (x R : Str) :
    (x ++ '#' :: R).dropWhile isTerminator = x.dropWhile isTerminator ++ '#' :: R := by
  induction x with
  | nil =>
    have : isTerminator '#' = false := by decide
    simp [List.dropWhile_cons, this]
  | cons c cs ih =>
    rw [List.cons_append, List.dropWhile_cons, List.dropWhile_cons]
    by_cases hc : isTerminator c = true
    · simp only [hc, if_true]
      exact ih
    · simp [hc]

theorem tag_eq_hash (R : Str) : typeToken ++ R = '#' :: (['t', 'y', 'p', 'e'] ++ R) := rfl

theorem firstOcc_none_of_suffix (b d : Str) (hb : ¬ typeToken <:+: b) (hd : d <:+ b) :
    firstOcc typeToken d = none :=
  firstOcc_none_of_not_infix typeToken d (fun h => hb (h.trans hd.isInfix))

theorem terminators_head (t : Str) (h0 : t ≠ []) (h : ∀ c ∈ t, c ∈ lineTerminators)
    (R : Str) : ∃ c S1, t ++ R = c :: S1 ∧ isTerminator c = true := by
  cases t with
  | nil => exact absurd rfl h0
  | cons c cs =>
    refine ⟨c, cs ++ R, rfl, ?_⟩
    have := h c (List.mem_cons_self c cs)
    simpa [isTerminator] using this

theorem terminators_all (t : Str) (h : ∀ c ∈ t, c ∈ lineTerminators) :
    ∀ c ∈ t, isTerminator c = true := by
  intro c hc
  have := h c hc
  simpa [isTerminator] using this

theorem scanFrom_last (name t body : Str) (kind : GLenum) (m : SourceMap)
    (hn : ∀ c ∈ name, isTerminator c = false)
    (hk : ShaderTypeFromString name = .ok kind) (hk0 : kind ≠ 0)
    (ht0 : t ≠ []) (ht : ∀ c ∈ t, c ∈ lineTerminators)
    (hb : ¬ typeToken <:+: body) (hlast : body.dropWhile isTerminator ≠ []) :
    scanFrom (typeToken ++ ' ' :: (name ++ (t ++ body))) m
      = .ok (UMap.assign m kind (body.dropWhile isTerminator)) := by
  rw [scanFrom_eq, tagLine_tag name (t ++ body) hn (terminators_head t ht0 ht body), hk]
  simp only [hk0, if_false]
  rw [dropWhile_append_all _ _ _ (terminators_all t ht)]
  simp only [hlast, if_false]
  rw [firstOcc_none_of_suffix body _ hb (List.dropWhile_suffix _)]

theorem scanFrom_first (name t body R : Str) (kind : GLenum) (m : SourceMap)
    (hn : ∀ c ∈ name, isTerminator c = false)
    (hk : ShaderTypeFromString name = .ok kind) (hk0 : kind ≠ 0)
    (ht0 : t ≠ []) (ht : ∀ c ∈ t, c ∈ lineTerminators)
    (hb : ¬ typeToken <:+: body) :
    scanFrom (typeToken ++ ' ' :: (name ++ (t ++ (body ++ (typeToken ++ R))))) m
      = scanFrom (typeToken ++ R) (UMap.assign m kind (body.dropWhile isTerminator)) := by
  rw [scanFrom_eq, tagLine_tag name _ hn (terminators_head t ht0 ht _), hk]
  simp only [hk0, if_false]
  rw [dropWhile_append_all _ _ _ (terminators_all t ht), tag_eq_hash, dropWhile_append_hash,
    ← tag_eq_hash]
  have hne : body.dropWhile isTerminator ++ (typeToken ++ R) ≠ [] := by
    rw [typeToken_eq]
    simp
  simp only [hne, if_false]
  rw [firstOcc_append_tag, firstOcc_none_of_suffix body _ hb (List.dropWhile_suffix _)]
  simp only [Option.getD_none, List.drop_left, List.take_left]

theorem PreProcess_two_tags (n1 n2 t1 t2 b1 b2 : Str) (k1 k2 : GLenum)
    (hn1 : ∀ c ∈ n1, isTerminator c = false) (hn2 : ∀ c ∈ n2, isTerminator c = false)
    (hk1 : ShaderTypeFromString n1 = .ok k1) (hk2 : ShaderTypeFromString n2 = .ok k2)
    (h10 : k1 ≠ 0) (h20 : k2 ≠ 0) (h12 : k1 ≠ k2)
    (ht10 : t1 ≠ []) (ht1 : ∀ c ∈ t1, c ∈ lineTerminators)
    (ht20 : t2 ≠ []) (ht2 : ∀ c ∈ t2, c ∈ lineTerminators)
    (hb1 : ¬ typeToken <:+: b1) (hb2 : ¬ typeToken <:+: b2)
    (hlast : b2.dropWhile isTerminator ≠ []) :
    PreProcess (typeToken ++ ' ' :: (n1 ++ (t1 ++ (b1 ++ (typeToken ++ ' ' :: (n2 ++ (t2 ++ b2)))))))
      = .ok [(k1, b1.dropWhile isTerminator), (k2, b2.dropWhile isTerminator)] := by
  rw [PreProcess_eq, firstOcc_tag]
  simp only [List.drop_zero]
  rw [scanFrom_first n1 t1 b1 _ k1 [] hn1 hk1 h10 ht10 ht1 hb1,
    scanFrom_last n2 t2 b2 k2 _ hn2 hk2 h20 ht20 ht2 hb2 hlast]
  simp [UMap.assign, h12]

/-- Claim C1, amended: for a combined source of a vertex and a fragment section, in either
order, each tag line ended by line terminators and neither body containing `#type`,
`PreProcess` succeeds whenever the body of the last section holds a character that is not a
line terminator, and it returns a mapping of exactly two entries: each stage kind is mapped
to the body of its section from the first character on that is not a line terminator. -/
theorem PreProcess_two_sections (t1 t2 vertexBody fragmentBody : Str)
    (ht10 : t1 ≠ []) (ht1 : ∀ c ∈ t1, c ∈ lineTerminators)
    (ht20 : t2 ≠ []) (ht2 : ∀ c ∈ t2, c ∈ lineTerminators)
    (hV : ¬ typeToken <:+: vertexBody) (hF : ¬ typeToken <:+: fragmentBody) :
    (fragmentBody.dropWhile isTerminator ≠ [] →
      ∃ m, PreProcess ("#type vertex".toList ++ (t1 ++ (vertexBody
              ++ ("#type fragment".toList ++ (t2 ++ fragmentBody))))) = .ok m
        ∧ UMap.size m = 2
        ∧ UMap.lookup m GL_VERTEX_SHADER = some (vertexBody.dropWhile isTerminator)
        ∧ UMap.lookup m GL_FRAGMENT_SHADER = some (fragmentBody.dropWhile isTerminator))
    ∧ (vertexBody.dropWhile isTerminator ≠ [] →
      ∃ m, PreProcess ("#type fragment".toList ++ (t2 ++ (fragmentBody
              ++ ("#type vertex".toList ++ (t1 ++ vertexBody))))) = .ok m
        ∧ UMap.size m = 2
        ∧ UMap.lookup m GL_VERTEX_SHADER = some (vertexBody.dropWhile isTerminator)
        ∧ UMap.lookup m GL_FRAGMENT_SHADER = some (fragmentBody.dropWhile isTerminator)) := by
  have hv : "#type vertex".toList = typeToken ++ ' ' :: "vertex".toList := rfl
  have hf : "#type fragment".toList = typeToken ++ ' ' :: "fragment".toList := rfl
  have hnv : ∀ c ∈ "vertex".toList, isTerminator c = false := by decide
  have hnf : ∀ c ∈ "fragment".toList, isTerminator c = false := by decide
  have hkv : ShaderTypeFromString "vertex".toList = .ok GL_VERTEX_SHADER := by decide
  have hkf : ShaderTypeFromString "fragment".toList = .ok GL_FRAGMENT_SHADER := by decide
  constructor
  · intro hlast
    refine ⟨[(GL_VERTEX_SHADER, vertexBody.dropWhile isTerminator),
      (GL_FRAGMENT_SHADER, fragmentBody.dropWhile isTerminator)], ?_, ?_, ?_, ?_⟩
    · rw [hv, hf]
      simp only [List.append_assoc, List.cons_append]
      exact PreProcess_two_tags _ _ t1 t2 vertexBody fragmentBody _ _ hnv hnf hkv hkf
        (by decide) (by decide) (by decide) ht10 ht1 ht20 ht2 hV hF hlast
    · rfl
    · simp [UMap.lookup]
    · simp [UMap.lookup, GL_VERTEX_SHADER, GL_FRAGMENT_SHADER]
  · intro hlast
    refine ⟨[(GL_FRAGMENT_SHADER, fragmentBody.dropWhile isTerminator),
      (GL_VERTEX_SHADER, vertexBody.dropWhile isTerminator)], ?_, ?_, ?_, ?_⟩
    · rw [hv, hf]
      simp only [List.append_assoc, List.cons_append]
      exact PreProcess_two_tags _ _ t2 t1 fragmentBody vertexBody _ _ hnf hnv hkf hkv
        (by decide) (by decide) (by decide) ht20 ht2 ht10 ht1 hF hV hlast
    · rfl
    · simp [UMap.lookup, GL_VERTEX_SHADER, GL_FRAGMENT_SHADER]
    · simp [UMap.lookup]

/-- Refutation of C1 as stated: with an empty body of the last section `PreProcess` fails,
and a body that starts with a blank line is not returned verbatim. -/
theorem two_sections_not_verbatim :
    PreProcess ("#type vertex\n".toList ++ "A\n".toList ++ "#type fragment\n".toList ++ [])
      = .error .syntaxError
    ∧ PreProcess ("#type vertex\n".toList ++ "\nA\n".toList ++ "#type fragment\n".toList
        ++ "B".toList)
      = .ok [(GL_VERTEX_SHADER, "A\n".toList), (GL_FRAGMENT_SHADER, "B".toList)]
    ∧ "A\n".toList ≠ "\nA\n".toList := by
  decide

/-- Witness of C1 as amended: a vertex body that starts with a blank line, tag lines ended
by `\r\n` and by `\n`. -/
theorem PreProcess_two_sections_witness :
    ∃ m, PreProcess ("#type vertex".toList ++ ("\r\n".toList ++ ("\nA\n".toList
            ++ ("#type fragment".toList ++ ("\n".toList ++ "B".toList))))) = .ok m
      ∧ UMap.size m = 2
      ∧ UMap.lookup m GL_VERTEX_SHADER = some ("\nA\n".toList.dropWhile isTerminator)
      ∧ UMap.lookup m GL_FRAGMENT_SHADER = some ("B".toList.dropWhile isTerminator) :=
  (PreProcess_two_sections "\r\n".toList "\n".toList "\nA\n".toList "B".toList
    (by decide) (by decide) (by decide) (by decide) (by decide) (by decide)).1 (by decide)

example : PreProcess "#type\nvertex".toList = .ok [(GL_VERTEX_SHADER, "vertex".toList)] := by
  decide
example : PreProcess "#type vertex\nA\n#type fragment\nB\n#type pixel\nC".toList
    = .ok [(GL_VERTEX_SHADER, "A\n".toList), (GL_FRAGMENT_SHADER, "C".toList)] := by
  decide
example : PreProcess "#type vertex\nA\n#type fragment\n".toList = .error .syntaxError := by
  decide
example : (ShaderLibrary.Load (oneFileWorld "shaders/Basic.glsl".toList
    "#type vertex\nA\n#type fragment\nB".toList) ShaderLibrary.empty
    "shaders/Basic.glsl".toList).map (fun r => r.2.Exists "Basic".toList) = .ok true := by
  decide
example : scannedTags "#type vertex\nA\n#type fragment\n".toList = [0, 15] := by
  decide

example : deriveName "shaders/Basic.glsl".toList = "Basic".toList := by decide
example : deriveName "shaders.v2/Basic".toList = "Basic".toList := by decide
example : specName "shaders.v2/Basic".toList = "Basic".toList := by decide
example : specName "shaders/Basic.glsl".toList = "Basic".toList := by decide

end gen
